import Mathlib

/-!
# Shallow embedding of the wai-common JSON configuration subsystem

This file embeds the declarative JSON configuration/validation subsystem of
`wai-common` (`src/wai/common/json/configuration`) and proves the properties
claimed about it.

Modelling conventions:
* Raw JSON values are an arbitrary type `J` wherever the code treats them
  opaquely; Python's `None`-vs-`Absent` distinction is modelled by wrapping in
  `Option` (`none` = the `Absent` singleton, `some x` = a present value).
* Raising an exception is modelled by returning `none` / `Except.error`;
  state that the code would have mutated after a raise is returned unchanged,
  exactly as the Python code leaves it.
* Python `dict`s with string keys are modelled as association lists looked up
  with `List.lookup` (first match); the code paths proved here only build
  dictionaries with pairwise-distinct keys.
* `DummyInstance` (its module is absent from the snapshot; it is used by
  `_OfProperty.py`, `_ArrayProxy.py` and `_MapProxy.py` purely as a fresh
  private key) is modelled from the spec as an opaque fresh key, here a `Nat`
  drawn from a counter.
-/

set_option autoImplicit false

namespace WaiCommon

universe u

/-! ## Configuration-level model (`_Configuration.py`)

A declared property, as seen by `Configuration`: its `name()`, its
`is_optional()` flag, its `validate_value` (returning the value to store, or
raising — modelled as `Option`), and its `_value_as_raw_json` conversion.
-/

/-- A declared property as consumed by `Configuration`
(`_Property.py`: `name()`, `is_optional()`, `validate_value`,
`_value_as_raw_json`). `validate_value = none` models a raised
validation error. -/
structure ConfigProperty (J : Type u) where
  name : String
  optional : Bool
  validate_value : J → Option J
  value_as_raw_json : J → J

/-- Per-instance state of a `Configuration`: one value slot per declared
property (`none` = `Absent`), plus the additional-properties bucket
(`self._additional_properties`, a `MapProxy` keyed by string). -/
structure Configuration (J : Type u) where
  values : List (Option J)
  additional : List (String × J)

/-- The present-property part of `Configuration._serialise_to_raw_json`:
build `{property.name(): property.get_as_raw_json(self)}` and strip the
`Absent` values. `ps` are the declared properties, `vs` the aligned
per-instance slots. -/
def serialisePresent {J : Type u} :
    List (ConfigProperty J) → List (Option J) → List (String × J)
  | p :: ps, v :: vs =>
    match v with
    | some x => (p.name, p.value_as_raw_json x) :: serialisePresent ps vs
    | none => serialisePresent ps vs
  | _, _ => []

/-- Python `dict.update`: overwritten keys keep their position with the new
value; fresh keys of `add` are appended in order. -/
def dictUpdate {J : Type u} (base add : List (String × J)) : List (String × J) :=
  base.map (fun kv =>
    match add.lookup kv.1 with
    | some v => (kv.1, v)
    | none => kv)
  ++ add.filter (fun kv => (base.lookup kv.1).isNone)

/-- `Configuration._serialise_to_raw_json`: emit each declared property's raw
JSON, drop the `Absent` ones, then `json.update(self._additional_properties)`. -/
def serialise_to_raw_json {J : Type u} (ps : List (ConfigProperty J))
    (c : Configuration J) : List (String × J) :=
  dictUpdate (serialisePresent ps c.values) c.additional

/-- The property-setting loop of `Configuration.__init__`: for each declared
property, pop its key from the initial values (default `Absent`) and set it.
Setting `Absent` on a non-optional property raises (`Property.__set__`), and
the `set_from_raw_json` fallback fails the same way, so the whole construction
fails (`none`). Otherwise `validate_value`'s result is stored. -/
def initPropertyValues {J : Type u} :
    List (ConfigProperty J) → List (String × J) → Option (List (Option J))
  | [], _ => some []
  | p :: ps, obj =>
    match obj.lookup p.name with
    | some j =>
      match p.validate_value j with
      | some v => (initPropertyValues ps obj).map (fun vs => some v :: vs)
      | none => none
    | none =>
      if p.optional then (initPropertyValues ps obj).map (fun vs => none :: vs)
      else none

/-- The initial values left over after the property loop of
`Configuration.__init__`: the keys not popped by any declared property. These
are what `__init__` passes as `**initial_values` to
`init_additional_properties`. -/
def remainingInitialValues {J : Type u} (ps : List (ConfigProperty J))
    (obj : List (String × J)) : List (String × J) :=
  obj.filter (fun kv => !ps.any (fun p => p.name == kv.1))

/-- The method slots of a `MapProxy` subclass that matter at its definition:
`value_property` is the abstract classmethod that `MapProxy.__init_subclass__`
and every proxy operation dispatch through; `sub_property` is the unrelated
name that `Configuration.init_additional_properties`'s closure class defines
instead. -/
structure MapProxySubclassSlots (J : Type u) where
  value_property : Option (ConfigProperty J)
  sub_property : Option (ConfigProperty J)

/-- The closure class `AdditionalPropertiesProxy` built inside
`Configuration.init_additional_properties`: it defines `sub_property`
(returning the configured additional-properties sub-property) but never
overrides `MapProxy`'s abstract `value_property` slot. -/
def additionalPropertiesProxySlots {J : Type u} (ap : ConfigProperty J) :
    MapProxySubclassSlots J :=
  ⟨none, some ap⟩

/-- `MapProxy.__init_subclass__`, run when the subclass is defined: it calls
`cls.value_property().is_optional()`. When the abstract slot is not
overridden, the abstract classmethod's body returns `None` and the attribute
access raises (`AttributeError`) — and instantiation would hit the
abstract-method `TypeError` regardless. When the slot is implemented, an
optional value sub-property is rejected. -/
def mapProxyInitSubclass {J : Type u} (s : MapProxySubclassSlots J) :
    Except String Unit :=
  match s.value_property with
  | none => .error ("NoneType object has no attribute is_optional")
  | some p =>
    if p.optional then .error ("Cannot use optional sub-property with maps")
    else .ok ()

/-- `Configuration.init_additional_properties`: define the closure class
`AdditionalPropertiesProxy` (which runs `MapProxy.__init_subclass__`) and
instantiate it with the leftover initial values. Its `value_property` slot is
never overridden, so the class definition raises on every call; were it to
get further, each bucket value would be pushed through the sub-property's
`__set__`, where `RawProperty.validate_value`'s mismatched `(self, value)`
arity raises a `TypeError` as well. `ap` is
`cls._additional_properties_sub_property[0]`. -/
def init_additional_properties {J : Type u} (ap : ConfigProperty J)
    (leftover : List (String × J)) : Except String (List (String × J)) :=
  match mapProxyInitSubclass (additionalPropertiesProxySlots ap) with
  | .error e => .error e
  | .ok () => .ok leftover

/-- `Configuration._deserialise_from_raw_json`: `cls(**raw_json)`, i.e. run
`Configuration.__init__` on the whole incoming object — the declared-property
loop, then `init_additional_properties` on the leftover keys. The second step
raises on every call (its closure class leaves `value_property` abstract), so
no call ever returns an instance. -/
def deserialise_from_raw_json {J : Type u} (ps : List (ConfigProperty J))
    (ap : ConfigProperty J) (obj : List (String × J)) :
    Option (Configuration J) :=
  match initPropertyValues ps obj with
  | none => none
  | some vs =>
    match init_additional_properties ap (remainingInitialValues ps obj) with
    | .error _ => none
    | .ok add => some ⟨vs, add⟩

/-- Validity of one declared property's slot, as the round-trip property
assumes it: a non-optional property holds a present value (the constructor
enforces this), and any present value survives conversion to raw JSON
followed by re-validation unchanged — which is how every leaf property
behaves, since its stored value is already its raw JSON and validation
returns accepted values unchanged. -/
def ConfigPropertyValid {J : Type u} (p : ConfigProperty J) (v : Option J) : Prop :=
  (p.optional = false → v.isSome = true) ∧
  ∀ x, v = some x → p.validate_value (p.value_as_raw_json x) = some x

/-! ## Property base contract (`_Property.py`)

A per-instance value slot for one property. The outer `Option` distinguishes
"never set" (`Property.__get__` raises an `AttributeError`) from "set"; the
inner `Option` is `OptionallyPresent` (`none` = `Absent`). -/

/-- Errors raised by `Property.__set__` / `Property.__get__`. -/
inductive PropertyError where
  | validationFailed
  | absentNonOptional
  | noValueSet
  deriving DecidableEq, Repr

/-- `Property.__set__`: validate the value (unless it is `Absent`), raising if
`Absent` is set on a non-optional property; on success, store
`validate_value`'s result via `_set_unchecked`. Returns the new slot and the
raised error, if any; on a raise the slot is returned unchanged. -/
def propertySet {J : Type u} (validate_value : J → Option J) (optional : Bool)
    (slot : Option (Option J)) (value : Option J) :
    Option (Option J) × Option PropertyError :=
  match value with
  | some x =>
    match validate_value x with
    | some stored => (some (some stored), none)
    | none => (slot, some .validationFailed)
  | none =>
    if optional then (some none, none)
    else (slot, some .absentNonOptional)

/-- `Property.__get__`: raises if no value was ever set for the instance,
otherwise returns the stored value (possibly `Absent`). -/
def propertyGet {J : Type u} (slot : Option (Option J)) :
    Except PropertyError (Option J) :=
  match slot with
  | some v => .ok v
  | none => .error .noValueSet

/-! ## ArrayProxy (`_ArrayProxy.py`)

The proxy's observable contents are the validated element values held by the
element sub-property under the proxy's private keys, in key-list order, so the
state is a `List α`. The element sub-property's `validate_value` is
`elemValidate`. -/

/-- Errors raised by `ArrayProxy` mutators. -/
inductive ArrayError where
  | atMaxSize
  | nonUnique
  | atMinSize
  | elementInvalid
  | indexOutOfRange
  deriving DecidableEq, Repr

/-- The class-level constraints of a `ClosureArrayProxy`
(`_ArrayProperty.py`): element sub-property validation, `min_elements()`,
`max_elements()` (`none` = `None`, no bound) and `unique_elements()`. -/
structure ArrayConstraints (α : Type u) where
  elemValidate : α → Option α
  minElements : Nat
  maxElements : Option Nat
  uniqueElements : Bool

/-- `ArrayProxy.append`: raise when the length equals `max_elements()`; raise
when `unique_elements()` and the value is already contained; then run the
element sub-property's `__set__` (which validates) on a fresh key and append
the key. On a raise the contents are returned unchanged. -/
def arrayAppend {α : Type u} [BEq α] (c : ArrayConstraints α) (st : List α)
    (value : α) : List α × Option ArrayError :=
  if c.maxElements = some st.length then (st, some .atMaxSize)
  else if c.uniqueElements && st.contains value then (st, some .nonUnique)
  else
    match c.elemValidate value with
    | some stored => (st ++ [stored], none)
    | none => (st, some .elementInvalid)

/-- `ArrayProxy.insert`: the same max-size and uniqueness checks as `append`,
then validate and insert the key at `index` (Python clamps an index past the
end to an append). -/
def arrayInsert {α : Type u} [BEq α] (c : ArrayConstraints α) (st : List α)
    (index : Nat) (value : α) : List α × Option ArrayError :=
  if c.maxElements = some st.length then (st, some .atMaxSize)
  else if c.uniqueElements && st.contains value then (st, some .nonUnique)
  else
    match c.elemValidate value with
    | some stored => (st.take index ++ stored :: st.drop index, none)
    | none => (st, some .elementInvalid)

/-- `ArrayProxy.pop` at the default index `-1`: raise when the length equals
`min_elements()`; otherwise pop the last key and return its value. -/
def arrayPop {α : Type u} (c : ArrayConstraints α) (st : List α) :
    List α × Except ArrayError α :=
  if st.length = c.minElements then (st, .error .atMinSize)
  else
    match st.getLast? with
    | some x => (st.dropLast, .ok x)
    | none => (st, .error .indexOutOfRange)

/-- The invariant the spec states for array proxies: the length respects
`min_elements()`/`max_elements()`, and under `unique_elements()` the contents
are pairwise distinct. -/
def ArrayInvariant {α : Type u} (c : ArrayConstraints α) (st : List α) : Prop :=
  c.minElements ≤ st.length ∧
  (∀ m, c.maxElements = some m → st.length ≤ m) ∧
  (c.uniqueElements = true → st.Nodup)

/-! ## A concrete value universe for the proxy-wrapping claims

`JVal` distinguishes the Python shapes `ArrayProperty.validate_value` /
`MapProperty.validate_value` dispatch on: native `list`/`tuple` (`list`),
native `dict` (`dict`), this property's own proxy types (`arrayProxy` /
`mapProxy`), and JSON primitives. -/

/-- Python values as seen by the proxy properties. `arrayProxy`/`mapProxy`
carry the validated contents held by the proxy's sub-property. -/
inductive JVal where
  | num (n : Int)
  | str (s : String)
  | bool (b : Bool)
  | null
  | list (xs : List JVal)
  | dict (kvs : List (String × JVal))
  | arrayProxy (xs : List JVal)
  | mapProxy (kvs : List (String × JVal))
  deriving BEq, Repr

/-- `ArrayProxy.__init__` with initial values: `__iadd__` appends each value
in turn, so each element runs through `append`'s max-size/uniqueness checks
and the element sub-property's validation; any raise aborts construction. -/
def buildArrayProxy (c : ArrayConstraints JVal) :
    List JVal → List JVal → Option (List JVal)
  | [], st => some st
  | x :: xs, st =>
    match arrayAppend c st x with
    | (st', none) => buildArrayProxy c xs st'
    | (_, some _) => none

/-- `MapProxy.__setitem__`: validate the value through the value sub-property,
then store the fresh key under `key` (overwriting any previous entry for
`key`, keeping its position, as a Python dict does). -/
def mapProxySetItem (valueValidate : JVal → Option JVal)
    (st : List (String × JVal)) (key : String) (value : JVal) :
    Option (List (String × JVal)) :=
  (valueValidate value).map (fun stored =>
    if (st.lookup key).isSome then
      st.map (fun kv => if kv.1 == key then (key, stored) else kv)
    else st ++ [(key, stored)])

/-- `MapProxy.__init__` via `update`: `__setitem__` for each incoming pair in
order; any raise aborts construction. -/
def buildMapProxy (valueValidate : JVal → Option JVal) :
    List (String × JVal) → List (String × JVal) → Option (List (String × JVal))
  | [], st => some st
  | (k, v) :: kvs, st =>
    match mapProxySetItem valueValidate st k v with
    | some st' => buildMapProxy valueValidate kvs st'
    | none => none

/-- `ArrayProperty.validate_value`: a native `list`/`tuple` (or a foreign
array proxy) is wrapped into this property's `ClosureArrayProxy`; a proxy of
this property's own type passes `ProxyProperty.validate_value`'s `isinstance`
check unchanged; any other shape fails the `from_raw_json` fallback (the
array schema rejects it). -/
def arrayPropertyValidate (c : ArrayConstraints JVal) : JVal → Option JVal
  | .list xs => (buildArrayProxy c xs []).map .arrayProxy
  | .arrayProxy xs => some (.arrayProxy xs)
  | _ => none

/-- `MapProperty.validate_value`: a native `dict` (or a foreign map proxy) is
wrapped into this property's `ClosureMapProxy`; a proxy of this property's own
type is returned unchanged; any other shape fails the `from_raw_json`
fallback (the object schema rejects it). -/
def mapPropertyValidate (valueValidate : JVal → Option JVal) : JVal → Option JVal
  | .dict kvs => (buildMapProxy valueValidate kvs []).map .mapProxy
  | .mapProxy kvs => some (.mapProxy kvs)
  | _ => none

/-! ## Union properties (`_OfProperty.py` and subclasses)

A candidate sub-property is abstracted by its `validate_value`
(`α → Option α`, `none` = raised). `OfProperty` keeps, per instance, the
selected candidate index as its stored value (`Property.__values`), the
private `DummyInstance` key (`__instance_keys`), and the values the candidate
sub-properties hold under those keys. -/

/-- Errors raised during candidate selection (`ValueError`s in the source). -/
inductive OfError where
  | noMatch
  | multipleMatch
  | notAllMatch
  | indexOutOfRange
  | selectedFailed
  | subPropertySetFailed
  deriving DecidableEq, Repr

/-- The validation loop of `OfProperty.select_from_valid_subproperties`: each
candidate validates the value; a failure is recorded as `Absent` (`none`),
not propagated. -/
def subPropertyResults {α : Type u} (cands : List (α → Option α)) (value : α) :
    List (Option α) :=
  cands.map (fun c => c value)

/-- The loop of `OneOfProperty.choose_subproperty`: scan the success vector
with a running index (initially `-1`, here `none`); a second success raises
immediately, no success at the end raises. -/
def chooseOneOfLoop : List Bool → Nat → Option Nat → Except OfError Nat
  | [], _, none => .error .noMatch
  | [], _, some index => .ok index
  | s :: rest, i, acc =>
    if s then
      match acc with
      | some _ => .error .multipleMatch
      | none => chooseOneOfLoop rest (i + 1) (some i)
    else chooseOneOfLoop rest (i + 1) acc

/-- `OneOfProperty.choose_subproperty`: exactly one success selects its index;
zero successes raise "didn't match any", two or more raise "matched more than
one". -/
def chooseOneOf (successes : List Bool) : Except OfError Nat :=
  chooseOneOfLoop successes 0 none

/-- `AllOfProperty.choose_subproperty`: all candidates must accept, and the
canonical index is then `0`. -/
def chooseAllOf (successes : List Bool) : Except OfError Nat :=
  if successes.all (fun s => s) then .ok 0 else .error .notAllMatch

/-- `AnyOfProperty.choose_current_property`: the first index holding a key is
chosen. This is the selection policy the class defines — but under a name
`OfProperty` never calls (see `anyOfChooseSubproperty`). -/
def chooseCurrentPropertyLoop {κ : Type u} : List (Option κ) → Nat → Except OfError Nat
  | [], _ => .error .noMatch
  | k :: rest, i =>
    match k with
    | some _ => .ok i
    | none => chooseCurrentPropertyLoop rest (i + 1)

/-- Entry point of `AnyOfProperty.choose_current_property`. -/
def chooseCurrentProperty {κ : Type u} (keys : List (Option κ)) : Except OfError Nat :=
  chooseCurrentPropertyLoop keys 0

/-- The `choose_subproperty` slot `OfProperty.select_from_valid_subproperties`
dispatches to. `OneOfProperty` and `AllOfProperty` override it;
`AnyOfProperty` does not (its policy sits under the dead name
`choose_current_property`), so its slot keeps the abstract `none` and Python's
ABC machinery refuses to instantiate the class. -/
structure OfSubclassSlots where
  chooseSubproperty : Option (List Bool → Except OfError Nat)

/-- `OneOfProperty`'s dispatch slot. -/
def oneOfSlots : OfSubclassSlots := ⟨some chooseOneOf⟩

/-- `AllOfProperty`'s dispatch slot. -/
def allOfSlots : OfSubclassSlots := ⟨some chooseAllOf⟩

/-- `AnyOfProperty`'s dispatch slot: `choose_subproperty` is left abstract. -/
def anyOfSlots : OfSubclassSlots := ⟨none⟩

/-- Python's ABC rule: a class with an unimplemented abstract method cannot be
instantiated (`TypeError` at construction). -/
def canInstantiate (s : OfSubclassSlots) : Bool :=
  s.chooseSubproperty.isSome

/-- `OfProperty.select_from_valid_subproperties`: validate against every
candidate, dispatch to `choose_subproperty` on the success vector, check the
returned index is in range and that the selected candidate succeeded, and
return the selected validated value with its index. -/
def selectFromValidSubproperties {α : Type u}
    (choose : List Bool → Except OfError Nat)
    (cands : List (α → Option α)) (value : α) : Except OfError (α × Nat) :=
  match choose ((subPropertyResults cands value).map Option.isSome) with
  | .error e => .error e
  | .ok index =>
    if h : index < (subPropertyResults cands value).length then
      match (subPropertyResults cands value).get ⟨index, h⟩ with
      | some v => .ok (v, index)
      | none => .error .selectedFailed
    else .error .indexOutOfRange

/-- Per-instance state of an `OfProperty`: the stored sub-property index
(`Property.__values[instance]`; `none` covers both never-set and `Absent`),
the instance key (`__instance_keys[instance]`), the values held by the
candidate sub-properties keyed by (candidate index, key), and a counter
supplying fresh `DummyInstance` keys. -/
structure OfState (α : Type u) where
  storedIndex : Option Nat
  instanceKey : Option Nat
  subValues : List ((Nat × Nat) × α)
  freshKey : Nat

/-- `OfProperty.validate_value` composed with `Property.__set__`'s store:
select the owning candidate (raising on no-match/ambiguity/not-all), set the
validated value on that candidate under a fresh `DummyInstance` key (the
candidate's own `__set__` re-validates it), record the key, and store the
index. On a raise the state is returned unchanged, exactly as the code leaves
it: every mutation sits after the raise points. -/
def ofPropertySet {α : Type u} (choose : List Bool → Except OfError Nat)
    (cands : List (α → Option α)) (st : OfState α) (value : α) :
    OfState α × Option OfError :=
  match selectFromValidSubproperties choose cands value with
  | .error e => (st, some e)
  | .ok (v, index) =>
    match (cands.getD index (fun _ => none)) v with
    | none => (st, some .subPropertySetFailed)
    | some stored =>
      ({ storedIndex := some index
         instanceKey := some st.freshKey
         subValues := ((index, st.freshKey), stored) :: st.subValues
         freshKey := st.freshKey + 1 }, none)

/-- `OfProperty.__get__`: dereference the stored index through
`_get_current_subproperty` and ask that candidate for the value under the
instance key; `Absent` (`none`) when no index is stored. -/
def ofPropertyGet {α : Type u} (st : OfState α) : Option α :=
  match st.storedIndex, st.instanceKey with
  | some index, some key => st.subValues.lookup (index, key)
  | _, _ => none

/-! ## Class-definition-time checks -/

/-- The duplicate-name check of `Configuration.__init_subclass__`: collect the
`name()` of every visible property (inherited ones included) and raise a
`TypeError` when the list is shorter after deduplication. -/
def initSubclassNameCheck (propertyNames : List String) : Except String Unit :=
  if propertyNames.length ≠ propertyNames.dedup.length then
    .error ("Duplicate property names")
  else .ok ()

/-- Python's `name.startswith("_")`: the first character is an underscore. -/
def startsWithUnderscore (s : String) : Bool :=
  s.data.head? == some '_'

/-- `Property.__set_name__`: an attribute name starting with an underscore
raises; otherwise an empty (defaulted) property name is replaced by the
attribute name and an explicit name is kept. Returns the bound name. -/
def propertySetName (propertyName attributeName : String) : Except String String :=
  if startsWithUnderscore attributeName then
    .error ("Property names cannot start with underscores")
  else if propertyName = "" then .ok attributeName
  else .ok propertyName

/-! ## Theorems -/

/-- Claim C7 — `Property.__set__` with `Absent` (`none`): it raises exactly when
the property is non-optional; when optional, `Absent` is stored without
consulting `validate_value` (the result is the same for every validation
function) and a subsequent `Property.__get__` returns `Absent`; when
non-optional, the slot is left unchanged. -/
theorem C7_set_absent {J : Type u} (validate : J → Option J) (optional : Bool)
    (slot : Option (Option J)) :
    ((propertySet validate optional slot none).2.isSome = !optional) ∧
    (optional = true →
      propertySet validate optional slot none = (some none, none) ∧
      propertyGet (propertySet validate optional slot none).1 = .ok none) ∧
    (optional = false →
      propertySet validate optional slot none =
        (slot, some .absentNonOptional)) ∧
    (∀ validate' : J → Option J,
      propertySet validate optional slot none =
        propertySet validate' optional slot none) := by
  cases optional <;>
    simp [propertySet, propertyGet]

/-- Closed witness for `C7_set_absent` at a concrete optional and a concrete
non-optional property over `Int` values. -/
theorem C7_set_absent_witness :
    propertySet (fun n : Int => some n) true (some (some 3)) none
        = (some none, none) ∧
    propertySet (fun n : Int => some n) false (some (some 3)) none
        = (some (some 3), some .absentNonOptional) := by
  refine ⟨((C7_set_absent (fun n : Int => some n) true (some (some 3))).2.1 rfl).1, ?_⟩
  exact (C7_set_absent (fun n : Int => some n) false (some (some 3))).2.2.1 rfl

/-- Claim C9 — the duplicate-name check of `Configuration.__init_subclass__`
succeeds exactly when the visible properties' names (inherited ones included)
are pairwise distinct; a duplicate raises at class-definition time, before
any instance can be constructed. -/
theorem C9_duplicate_property_names (propertyNames : List String) :
    initSubclassNameCheck propertyNames = .ok () ↔ propertyNames.Nodup := by
  unfold initSubclassNameCheck
  constructor
  · intro h
    by_cases hd : propertyNames.length = propertyNames.dedup.length
    · have hsub : propertyNames.dedup.Sublist propertyNames :=
        List.dedup_sublist propertyNames
      have : propertyNames.dedup = propertyNames :=
        hsub.eq_of_length hd.symm
      simpa [this] using propertyNames.nodup_dedup
    · simp [hd] at h
  · intro h
    simp [List.Nodup.dedup h]

/-- Closed witness for `C9_duplicate_property_names`: the check passes on
distinct names and, by the same equivalence, rejects a duplicated name. -/
theorem C9_duplicate_property_names_witness :
    initSubclassNameCheck ["count", "name"] = .ok () ∧
    initSubclassNameCheck ["count", "count"] ≠ .ok () := by
  constructor
  · exact (C9_duplicate_property_names ["count", "name"]).2 (by decide)
  · intro h
    exact absurd ((C9_duplicate_property_names ["count", "count"]).1 h)
      (by decide)

/-- Claim C10 — `Property.__set_name__`: binding against an attribute whose name
starts with an underscore raises; for any other attribute an explicit
non-empty property name is kept unchanged; an inferred name equals the
attribute name, which cannot begin with an underscore. -/
theorem C10_set_name (propertyName attributeName : String) :
    (startsWithUnderscore attributeName = true →
      propertySetName propertyName attributeName =
        .error ("Property names cannot start with underscores")) ∧
    (startsWithUnderscore attributeName = false → propertyName ≠ "" →
      propertySetName propertyName attributeName = .ok propertyName) ∧
    (∀ boundName, propertySetName ("") attributeName = .ok boundName →
      boundName = attributeName ∧ startsWithUnderscore boundName = false) := by
  refine ⟨fun h => by simp [propertySetName, h], fun h hne => ?_, fun n h => ?_⟩
  · simp [propertySetName, h, hne]
  · by_cases hu : startsWithUnderscore attributeName
    · simp [propertySetName, hu] at h
    · simp only [Bool.not_eq_true] at hu
      simp [propertySetName, hu] at h
      exact ⟨h.symm, h ▸ hu⟩

/-- Closed witness for `C10_set_name`: an underscore attribute raises, an
explicit name survives binding, and an inferred name equals the attribute
name. -/
theorem C10_set_name_witness :
    propertySetName ("count") ("_count") =
      .error ("Property names cannot start with underscores") ∧
    propertySetName ("count") ("items") = .ok ("count") ∧
    propertySetName ("") ("items") = .ok ("items") := by
  refine ⟨(C10_set_name ("count") ("_count")).1 (by decide), ?_, ?_⟩
  · exact (C10_set_name ("count") ("items")).2.1 (by decide) (by decide)
  · simp [propertySetName, startsWithUnderscore]

/-- Claim C3 — the `AnyOfProperty` code is broken: `OfProperty` dispatches
candidate selection through the abstract slot `choose_subproperty`, which
`OneOfProperty` and `AllOfProperty` implement but `AnyOfProperty` does not
(its first-accepting policy sits under the never-called name
`choose_current_property`), so Python's ABC machinery raises a `TypeError` at
construction and no value can ever be set. The dead policy itself does pick
the first accepting index, as the claim describes. -/
theorem C3_anyOf_unimplemented_slot :
    canInstantiate anyOfSlots = false ∧
    canInstantiate oneOfSlots = true ∧
    canInstantiate allOfSlots = true ∧
    chooseCurrentProperty [(none : Option Nat), some 0, some 7] = .ok 1 ∧
    chooseCurrentProperty ([] : List (Option Nat)) = .error .noMatch := by
  refine ⟨rfl, rfl, rfl, rfl, rfl⟩

/-! ### Lemmas about the `OneOfProperty` selection loop -/

/-- Claim C4 — union-property sets are all-or-nothing: whenever candidate
selection fails (no-match, ambiguity, all-of failure — any
`select_from_valid_subproperties` error), `OfProperty.validate_value` raises
before touching the instance's stored index, its `DummyInstance` key, or any
sub-property placeholder, so `get` afterwards sees exactly the previous
value. -/
theorem C4_no_partial_commit {α : Type u}
    (choose : List Bool → Except OfError Nat) (cands : List (α → Option α))
    (st : OfState α) (value : α)
    (h : ∃ e, selectFromValidSubproperties choose cands value = .error e) :
    (ofPropertySet choose cands st value).1 = st ∧
    ((ofPropertySet choose cands st value).2.isSome = true) ∧
    ofPropertyGet (ofPropertySet choose cands st value).1 = ofPropertyGet st := by
  obtain ⟨e, he⟩ := h
  simp [ofPropertySet, he]

/-- Closed witness for `C4_no_partial_commit`: a one-of property holding `5`
rejects a value no candidate accepts and still holds `5`. -/
theorem C4_no_partial_commit_witness :
    (ofPropertySet chooseOneOf
        [fun _ : Int => none, fun _ : Int => none]
        ⟨some 0, some 0, [((0, 0), 5)], 1⟩ 7).1 =
      ⟨some 0, some 0, [((0, 0), 5)], 1⟩ ∧
    ofPropertyGet (ofPropertySet chooseOneOf
        [fun _ : Int => none, fun _ : Int => none]
        ⟨some 0, some 0, [((0, 0), 5)], 1⟩ 7).1 = some 5 := by
  have h := C4_no_partial_commit chooseOneOf
    [fun _ : Int => none, fun _ : Int => none]
    ⟨some 0, some 0, [((0, 0), 5)], 1⟩ 7 ⟨.noMatch, rfl⟩
  exact ⟨h.1, by rw [h.2.2]; rfl⟩

/-- A successful `ArrayProxy.append` preserves the length/uniqueness
invariant when element validation is the identity on accepted values. -/
theorem arrayAppend_preserves_invariant {α : Type u} [BEq α] [LawfulBEq α]
    (c : ArrayConstraints α) (st : List α) (v : α)
    (hid : ∀ x y, c.elemValidate x = some y → y = x)
    (hinv : ArrayInvariant c st) (hok : (arrayAppend c st v).2 = none) :
    ArrayInvariant c (arrayAppend c st v).1 := by
  obtain ⟨h1, h2, h3⟩ := hinv
  unfold arrayAppend at hok ⊢
  by_cases hmax : c.maxElements = some st.length
  · rw [if_pos hmax] at hok
    simp at hok
  · rw [if_neg hmax] at hok ⊢
    by_cases hdup : (c.uniqueElements && st.contains v) = true
    · rw [if_pos hdup] at hok
      simp at hok
    · rw [if_neg hdup] at hok ⊢
      cases hev : c.elemValidate v with
      | none => rw [hev] at hok; simp at hok
      | some u =>
        have hu : u = v := hid v u hev
        show ArrayInvariant c (st ++ [u])
        rw [hu]
        refine ⟨?_, ?_, ?_⟩
        · simp only [List.length_append, List.length_singleton]
          omega
        · intro m hm
          have hne : m ≠ st.length := fun he => hmax (he ▸ hm)
          have := h2 m hm
          simp only [List.length_append, List.length_singleton]
          omega
        · intro hq
          have hnm : v ∉ st := by
            intro hvm
            exact hdup (by
              simpa [hq, List.contains, List.elem_iff] using hvm)
          simp [List.nodup_append, h3 hq, hnm]

/-- A successful `ArrayProxy.insert` preserves the length/uniqueness
invariant when element validation is the identity on accepted values. -/
theorem arrayInsert_preserves_invariant {α : Type u} [BEq α] [LawfulBEq α]
    (c : ArrayConstraints α) (st : List α) (v : α) (i : Nat)
    (hid : ∀ x y, c.elemValidate x = some y → y = x)
    (hinv : ArrayInvariant c st) (hok : (arrayInsert c st i v).2 = none) :
    ArrayInvariant c (arrayInsert c st i v).1 := by
  obtain ⟨h1, h2, h3⟩ := hinv
  unfold arrayInsert at hok ⊢
  by_cases hmax : c.maxElements = some st.length
  · rw [if_pos hmax] at hok
    simp at hok
  · rw [if_neg hmax] at hok ⊢
    by_cases hdup : (c.uniqueElements && st.contains v) = true
    · rw [if_pos hdup] at hok
      simp at hok
    · rw [if_neg hdup] at hok ⊢
      cases hev : c.elemValidate v with
      | none => rw [hev] at hok; simp at hok
      | some u =>
        have hu : u = v := hid v u hev
        show ArrayInvariant c (st.take i ++ u :: st.drop i)
        rw [hu]
        have hperm0 : (st.take i ++ v :: st.drop i).Perm
            (v :: (st.take i ++ st.drop i)) := List.perm_middle
        have hperm : (st.take i ++ v :: st.drop i).Perm (v :: st) := by
          simpa [List.take_append_drop] using hperm0
        refine ⟨?_, ?_, ?_⟩
        · simp only [hperm.length_eq, List.length_cons]
          omega
        · intro m hm
          have hne : m ≠ st.length := fun he => hmax (he ▸ hm)
          have := h2 m hm
          simp only [hperm.length_eq, List.length_cons]
          omega
        · intro hq
          have hnm : v ∉ st := by
            intro hvm
            exact hdup (by
              simpa [hq, List.contains, List.elem_iff] using hvm)
          exact hperm.nodup_iff.2 (by simp [h3 hq, hnm])

/-- A successful `ArrayProxy.pop` preserves the length/uniqueness
invariant. -/
theorem arrayPop_preserves_invariant {α : Type u}
    (c : ArrayConstraints α) (st : List α)
    (hinv : ArrayInvariant c st) (hok : (arrayPop c st).2.isOk = true) :
    ArrayInvariant c (arrayPop c st).1 := by
  obtain ⟨h1, h2, h3⟩ := hinv
  unfold arrayPop at hok ⊢
  by_cases hmin : st.length = c.minElements
  · rw [if_pos hmin] at hok
    simp [Except.isOk, Except.toBool] at hok
  · rw [if_neg hmin] at hok ⊢
    cases hl : st.getLast? with
    | none => rw [hl] at hok; simp [Except.isOk, Except.toBool] at hok
    | some x =>
      show ArrayInvariant c st.dropLast
      have hlen : st.dropLast.length = st.length - 1 := List.length_dropLast st
      refine ⟨?_, ?_, ?_⟩
      · simp only [hlen]
        omega
      · intro m hm
        have := h2 m hm
        simp only [hlen]
        omega
      · intro hq
        exact (h3 hq).sublist (List.dropLast_sublist st)

/-- Claim C5 — `ArrayProxy` enforces its constraints on every mutation: an
`append` (or `insert`) at `max_elements()` raises; an `append`/`insert` of an
already-contained element raises under `unique_elements()`; a `pop` at
`min_elements()` raises — in every case the contents are unchanged.
Successful `append`/`insert`/`pop` preserve the min/max-length bounds and,
under `unique_elements()`, pairwise distinctness, given that the element
sub-property's validation is the identity on the values it accepts (true of
every leaf property). -/
theorem C5_array_mutation_invariants {α : Type u} [BEq α] [LawfulBEq α]
    (c : ArrayConstraints α) (st : List α) (v : α) (i : Nat) :
    (c.maxElements = some st.length →
      arrayAppend c st v = (st, some .atMaxSize) ∧
      arrayInsert c st i v = (st, some .atMaxSize)) ∧
    (c.uniqueElements = true → v ∈ st →
      (arrayAppend c st v).1 = st ∧ (arrayAppend c st v).2.isSome = true ∧
      (arrayInsert c st i v).1 = st ∧ (arrayInsert c st i v).2.isSome = true) ∧
    (st.length = c.minElements → arrayPop c st = (st, .error .atMinSize)) ∧
    ((∀ x y, c.elemValidate x = some y → y = x) → ArrayInvariant c st →
      ((arrayAppend c st v).2 = none →
        ArrayInvariant c (arrayAppend c st v).1) ∧
      ((arrayInsert c st i v).2 = none →
        ArrayInvariant c (arrayInsert c st i v).1) ∧
      ((arrayPop c st).2.isOk = true → ArrayInvariant c (arrayPop c st).1)) := by
  refine ⟨fun hmax => ?_, fun huniq hmem => ?_, fun hmin => ?_,
    fun hid hinv =>
      ⟨arrayAppend_preserves_invariant c st v hid hinv,
        arrayInsert_preserves_invariant c st v i hid hinv,
        arrayPop_preserves_invariant c st hinv⟩⟩
  · constructor <;> simp [arrayAppend, arrayInsert, hmax]
  · have hc : st.contains v = true := by
      simpa [List.contains, List.elem_iff] using hmem
    by_cases hmax : c.maxElements = some st.length <;>
      simp [arrayAppend, arrayInsert, hmax, huniq, hc, hmem]
  · simp [arrayPop, hmin]

/-- Closed witness for `C5_array_mutation_invariants` at
`ArrayProperty(min=1, max=3, unique=true)` over `Int` elements with identity
element validation: the 4th append raises, a duplicate append raises, `pop`
at size 1 raises (each leaving the contents untouched), and a successful
append preserves the invariant. -/
theorem C5_array_mutation_invariants_witness :
    arrayAppend ⟨some, 1, some 3, true⟩ [1, 2, 3] (4 : Int) =
      ([1, 2, 3], some .atMaxSize) ∧
    (arrayAppend ⟨some, 1, some 3, true⟩ [1, 2] (2 : Int)).1 = [1, 2] ∧
    (arrayAppend ⟨some, 1, some 3, true⟩ [1, 2] (2 : Int)).2.isSome = true ∧
    arrayPop ⟨some, 1, some 3, true⟩ [(1 : Int)] =
      ([1], .error .atMinSize) ∧
    ArrayInvariant ⟨some, 1, some 3, true⟩
      (arrayAppend ⟨some, 1, some 3, true⟩ [1] (2 : Int)).1 := by
  have h1 := (C5_array_mutation_invariants ⟨some, 1, some 3, true⟩
    [1, 2, 3] (4 : Int) 0).1 rfl
  have h2 := (C5_array_mutation_invariants ⟨some, 1, some 3, true⟩
    [1, 2] (2 : Int) 0).2.1 rfl (by decide)
  have h3 := (C5_array_mutation_invariants ⟨some, 1, some 3, true⟩
    [(1 : Int)] 0 0).2.2.1 rfl
  have h4 := ((C5_array_mutation_invariants ⟨some, 1, some 3, true⟩
    [(1 : Int)] (2 : Int) 0).2.2.2 (fun x y hxy => by
      simpa using hxy.symm) ⟨by decide,
        by intro m hm; simp only [Option.some.injEq] at hm; subst hm; decide,
        fun _ => by decide⟩).1 (by decide)
  exact ⟨h1.1, h2.1, h2.2.1, h3, h4⟩

/-- Claim C6 — `Property.__set__` persists exactly the value returned by
`validate_value`, not necessarily the input, and `get` then returns that
stored result; in particular an `ArrayProperty` (resp. `MapProperty`) given a
plain native list/tuple (resp. dict) stores the proxy object wrapping it
produced during validation. -/
theorem C6_persisted_value_is_validated {J : Type u} (validate : J → Option J)
    (optional : Bool) (slot : Option (Option J)) :
    (∀ x w, validate x = some w →
      propertySet validate optional slot (some x) = (some (some w), none) ∧
      propertyGet (propertySet validate optional slot (some x)).1 =
        .ok (some w)) ∧
    (∀ (c : ArrayConstraints JVal) (opt2 : Bool)
        (slot2 : Option (Option JVal)) (xs ys : List JVal),
      buildArrayProxy c xs [] = some ys →
      propertySet (arrayPropertyValidate c) opt2 slot2 (some (.list xs)) =
        (some (some (.arrayProxy ys)), none)) ∧
    (∀ (valv : JVal → Option JVal) (opt2 : Bool)
        (slot2 : Option (Option JVal)) (kvs out : List (String × JVal)),
      buildMapProxy valv kvs [] = some out →
      propertySet (mapPropertyValidate valv) opt2 slot2 (some (.dict kvs)) =
        (some (some (.mapProxy out)), none)) := by
  refine ⟨fun x w h => ?_, fun c opt2 slot2 xs ys h => ?_,
    fun valv opt2 slot2 kvs out h => ?_⟩
  · simp [propertySet, propertyGet, h]
  · simp [propertySet, arrayPropertyValidate, h]
  · simp [propertySet, mapPropertyValidate, h]

/-- Closed witness for `C6_persisted_value_is_validated`: a normalising
validator persists its output (`5`) rather than its input (`4`), and a plain
list/dict assigned to an array/map property is stored wrapped in the
corresponding proxy. -/
theorem C6_persisted_value_is_validated_witness :
    propertySet (fun n : Int => some (n + 1)) false none (some 4) =
      (some (some 5), none) ∧
    propertySet (arrayPropertyValidate ⟨some, 0, none, false⟩) false none
        (some (.list [.num 1, .num 2])) =
      (some (some (.arrayProxy [.num 1, .num 2])), none) ∧
    propertySet (mapPropertyValidate some) false none
        (some (.dict [("a", .num 1)])) =
      (some (some (.mapProxy [("a", .num 1)])), none) := by
  have h := C6_persisted_value_is_validated (fun n : Int => some (n + 1))
    false none
  refine ⟨(h.1 4 5 rfl).1, h.2.1 ⟨some, 0, none, false⟩ false none
    [.num 1, .num 2] [.num 1, .num 2] rfl, h.2.2 some false none
    [("a", .num 1)] [("a", .num 1)] rfl⟩

/-! ### Association-list lemmas for the Configuration round trip -/

theorem lookup_eq_none_of_keys {J : Type u} (l : List (String × J)) (k : String)
    (h : ∀ kv ∈ l, kv.1 ≠ k) : l.lookup k = none := by
  induction l with
  | nil => rfl
  | cons kv rest ih =>
    obtain ⟨k1, v1⟩ := kv
    have hk : (k == k1) = false := by
      have hne := h (k1, v1) (by simp)
      exact beq_eq_false_iff_ne.2 (fun he => hne he.symm)
    simp only [List.lookup, hk]
    exact ih fun x hx => h x (by simp [hx])

theorem lookup_append_left_none {J : Type u} (l r : List (String × J))
    (k : String) (h : l.lookup k = none) :
    (l ++ r).lookup k = r.lookup k := by
  induction l with
  | nil => simp
  | cons kv rest ih =>
    obtain ⟨k1, v1⟩ := kv
    cases hkk : (k == k1) with
    | true =>
      simp only [List.lookup, hkk] at h
      exact absurd h (by simp)
    | false =>
      simp only [List.lookup, hkk] at h
      simp only [List.cons_append, List.lookup, hkk]
      exact ih h

theorem serialisePresent_keys {J : Type u} (ps : List (ConfigProperty J)) :
    ∀ (vs : List (Option J)), ∀ kv ∈ serialisePresent ps vs,
      kv.1 ∈ ps.map ConfigProperty.name := by
  induction ps with
  | nil => intro vs kv h; simp [serialisePresent] at h
  | cons p ps ih =>
    intro vs kv h
    cases vs with
    | nil => simp [serialisePresent] at h
    | cons v vs =>
      cases v with
      | some x =>
        simp only [serialisePresent] at h
        rcases List.mem_cons.1 h with he | ht
        · simp [he]
        · simp only [List.map_cons, List.mem_cons]
          exact Or.inr (ih vs kv ht)
      | none =>
        simp only [serialisePresent] at h
        simp only [List.map_cons, List.mem_cons]
        exact Or.inr (ih vs kv h)

theorem initPropertyValues_cons_irrelevant {J : Type u}
    (ps : List (ConfigProperty J)) (k : String) (j : J)
    (obj : List (String × J)) (h : ∀ p ∈ ps, p.name ≠ k) :
    initPropertyValues ps ((k, j) :: obj) = initPropertyValues ps obj := by
  induction ps with
  | nil => rfl
  | cons p ps ih =>
    have hk : (p.name == k) = false := beq_eq_false_iff_ne.2 (h p (by simp))
    simp only [initPropertyValues, List.lookup, hk]
    rw [ih (fun q hq => h q (by simp [hq]))]

theorem dictUpdate_disjoint {J : Type u} (base add : List (String × J))
    (h1 : ∀ kv ∈ base, add.lookup kv.1 = none)
    (h2 : ∀ kv ∈ add, base.lookup kv.1 = none) :
    dictUpdate base add = base ++ add := by
  unfold dictUpdate
  have hmap : base.map (fun kv =>
      match add.lookup kv.1 with
      | some v => (kv.1, v)
      | none => kv) = base := by
    conv_rhs => rw [← List.map_id base]
    refine List.map_congr_left (fun kv hkv => ?_)
    simp [h1 kv hkv]
  have hfil : add.filter (fun kv => (base.lookup kv.1).isNone) = add :=
    List.filter_eq_self.2 (fun kv hkv => by rw [h2 kv hkv]; rfl)
  rw [hmap, hfil]

/-- The property-setting loop of `__init__` recovers exactly the serialised
slots when every stored value is valid, the declared names are distinct, and
the additional keys avoid them. -/
theorem initPropertyValues_roundtrip {J : Type u} (ps : List (ConfigProperty J))
    (vs : List (Option J)) (add : List (String × J))
    (h : List.Forall₂ ConfigPropertyValid ps vs)
    (hnd : (ps.map ConfigProperty.name).Nodup)
    (hadd : ∀ kv ∈ add, ∀ p ∈ ps, kv.1 ≠ p.name) :
    initPropertyValues ps (serialisePresent ps vs ++ add) = some vs := by
  induction h with
  | nil => rfl
  | @cons p v ps vs hpv htail ih =>
    obtain ⟨hpv1, hpv2⟩ := hpv
    have hnd0 : (p.name :: ps.map ConfigProperty.name).Nodup := by
      simpa using hnd
    have hnd' := List.nodup_cons.1 hnd0
    have hadd' : ∀ kv ∈ add, ∀ q ∈ ps, kv.1 ≠ q.name :=
      fun kv hkv q hq => hadd kv hkv q (by simp [hq])
    cases v with
    | some x =>
      simp only [serialisePresent, List.cons_append, initPropertyValues,
        List.lookup, beq_self_eq_true]
      rw [hpv2 x rfl]
      rw [initPropertyValues_cons_irrelevant ps p.name (p.value_as_raw_json x)
        _ (fun q hq he =>
          hnd'.1 (by rw [← he]; exact List.mem_map_of_mem ConfigProperty.name hq))]
      rw [ih hnd'.2 hadd']
      rfl
    | none =>
      have hop : p.optional = true := by
        by_cases hopt : p.optional = true
        · exact hopt
        · have := hpv1 (by simpa using hopt)
          simp at this
      have hlook : (serialisePresent ps vs ++ add).lookup p.name = none := by
        rw [lookup_append_left_none _ _ _ (lookup_eq_none_of_keys _ _
          (fun kv hkv he =>
            hnd'.1 (by rw [← he]; exact serialisePresent_keys ps vs kv hkv)))]
        exact lookup_eq_none_of_keys _ _ (fun kv hkv => hadd kv hkv p (by simp))
      simp only [serialisePresent, initPropertyValues, hlook, hop, if_true]
      rw [ih hnd'.2 hadd']
      rfl

/-- The keys left over after the property loop of a serialised object are
exactly the additional bucket's original entries. -/
theorem remainingInitialValues_serialise {J : Type u}
    (ps : List (ConfigProperty J))
    (vs : List (Option J)) (add : List (String × J))
    (hadd : ∀ kv ∈ add, ∀ p ∈ ps, kv.1 ≠ p.name) :
    remainingInitialValues ps (serialisePresent ps vs ++ add) = add := by
  unfold remainingInitialValues
  rw [List.filter_append]
  have hnil : (serialisePresent ps vs).filter
      (fun kv => !ps.any (fun p => p.name == kv.1)) = [] := by
    rw [List.filter_eq_nil_iff]
    intro kv hkv
    have hg := serialisePresent_keys ps vs kv hkv
    simp only [List.mem_map] at hg
    obtain ⟨p, hp, hpname⟩ := hg
    simp [List.any_eq_true]
    exact ⟨p, hp, hpname⟩
  have hself : add.filter (fun kv => !ps.any (fun p => p.name == kv.1)) = add := by
    rw [List.filter_eq_self]
    intro kv hkv
    simp only [Bool.not_eq_true', List.any_eq_false]
    intro p hp
    exact fun he => hadd kv hkv p hp (eq_of_beq he).symm
  rw [hnil, hself, List.nil_append]

/-- Everything in the round trip apart from `init_additional_properties` is
sound: for valid slots (non-optional present; present values unchanged by
raw-JSON-conversion-then-revalidation), distinct declared names and
additional keys avoiding them, the declared-property loop of `__init__` run
on `_serialise_to_raw_json`'s output recovers every slot, and the leftover
keys are the original additional entries. The whole round trip still never
completes, because `__init__` then raises (see the claim C1 theorem). -/
theorem roundtrip_up_to_additional_properties {J : Type u}
    (ps : List (ConfigProperty J)) (c : Configuration J)
    (h : List.Forall₂ ConfigPropertyValid ps c.values)
    (hnd : (ps.map ConfigProperty.name).Nodup)
    (hadd : ∀ kv ∈ c.additional, ∀ p ∈ ps, kv.1 ≠ p.name) :
    initPropertyValues ps (serialise_to_raw_json ps c) = some c.values ∧
    remainingInitialValues ps (serialise_to_raw_json ps c) = c.additional := by
  obtain ⟨vs, add⟩ := c
  simp only [serialise_to_raw_json] at *
  have hupd : dictUpdate (serialisePresent ps vs) add =
      serialisePresent ps vs ++ add := by
    refine dictUpdate_disjoint _ _ (fun kv hkv => ?_) (fun kv hkv => ?_)
    · obtain ⟨p, hp, hpname⟩ :=
        List.mem_map.1 (serialisePresent_keys ps vs kv hkv)
      exact lookup_eq_none_of_keys _ _ (fun akv hakv he =>
        hadd akv hakv p hp (he.trans hpname.symm))
    · refine lookup_eq_none_of_keys _ _ (fun kv' hkv' he => ?_)
      obtain ⟨p, hp, hpname⟩ :=
        List.mem_map.1 (serialisePresent_keys ps vs kv' hkv')
      exact hadd kv hkv p hp ((hpname.trans he).symm)
  rw [hupd, initPropertyValues_roundtrip ps vs add h hnd hadd,
    remainingInitialValues_serialise ps vs add hadd]
  exact ⟨rfl, rfl⟩

/-- Closed witness for `roundtrip_up_to_additional_properties` at a
two-property configuration (required `count = 5`, optional `label` absent)
with one additional entry `extra = 7`. -/
theorem roundtrip_up_to_additional_properties_witness :
    initPropertyValues
      [⟨"count", false, some, id⟩, ⟨"label", true, some, id⟩]
      (serialise_to_raw_json
        [⟨"count", false, some, id⟩, ⟨"label", true, some, id⟩]
        ⟨[some (5 : Int), none], [("extra", 7)]⟩) =
      some [some (5 : Int), none] := by
  refine (roundtrip_up_to_additional_properties _ _ ?_ (by decide)
    (by decide)).1
  refine List.Forall₂.cons ⟨fun _ => rfl, fun x hx => by simp⟩ ?_
  exact List.Forall₂.cons ⟨fun hc => by simp at hc, fun x hx => by simp at hx⟩
    List.Forall₂.nil

/-- Claim C1 — code bug: the claimed round trip can never run. Every
`Configuration.__init__` — hence every `_deserialise_from_raw_json`, which is
`cls(**raw_json)` — unconditionally ends in `init_additional_properties`,
whose closure class `AdditionalPropertiesProxy` defines `sub_property` but
never overrides `MapProxy`'s abstract `value_property` slot;
`MapProxy.__init_subclass__` then calls `cls.value_property().is_optional()`
on the abstract method's `None` and raises (and instantiation would hit the
abstract-method `TypeError` regardless, with bucket values further hitting
`RawProperty.validate_value`'s mismatched `(self, value)` arity). So
deserialising a serialised configuration — or any object at all — never
yields an instance, even though the declared-property loop and leftover-key
routing by themselves would invert serialisation. -/
theorem C1_roundtrip_never_runs {J : Type u} (ps : List (ConfigProperty J))
    (ap : ConfigProperty J) (obj : List (String × J)) (c : Configuration J) :
    (additionalPropertiesProxySlots ap).value_property = none ∧
    (∃ e, init_additional_properties ap
      (remainingInitialValues ps obj) = .error e) ∧
    deserialise_from_raw_json ps ap obj = none ∧
    deserialise_from_raw_json ps ap (serialise_to_raw_json ps c) = none := by
  refine ⟨rfl, ⟨"NoneType object has no attribute is_optional", rfl⟩, ?_, ?_⟩
  · unfold deserialise_from_raw_json
    cases initPropertyValues ps obj <;> rfl
  · unfold deserialise_from_raw_json
    cases initPropertyValues ps (serialise_to_raw_json ps c) <;> rfl

/-- Per-property reading of a successful `__init__`: a declared property
whose key is missing from the incoming object ends up `Absent`. -/
theorem initPropertyValues_missing_key {J : Type u}
    (ps : List (ConfigProperty J)) (obj : List (String × J)) :
    ∀ vs', initPropertyValues ps obj = some vs' →
      List.Forall₂ (fun (q : ConfigProperty J) (v' : Option J) =>
        obj.lookup q.name = none → v' = none) ps vs' := by
  induction ps with
  | nil =>
    intro vs' h
    have : vs' = [] := by
      simpa [initPropertyValues] using h.symm
    subst this
    exact List.Forall₂.nil
  | cons p ps ih =>
    intro vs' h
    cases hl : obj.lookup p.name with
    | some j =>
      simp only [initPropertyValues, hl] at h
      cases hv : p.validate_value j with
      | none => simp [hv] at h
      | some w =>
        cases hrec : initPropertyValues ps obj with
        | none => simp [hv, hrec] at h
        | some ws =>
          simp only [hv, hrec, Option.map_some'] at h
          injection h with h2
          subst h2
          exact List.Forall₂.cons (fun hc => absurd hl (by simp [hc]))
            (ih ws hrec)
    | none =>
      simp only [initPropertyValues, hl] at h
      cases hop : p.optional with
      | false => simp [hop] at h
      | true =>
        cases hrec : initPropertyValues ps obj with
        | none => simp [hop, hrec] at h
        | some ws =>
          simp only [hop, if_true, hrec, Option.map_some'] at h
          injection h with h2
          subst h2
          exact List.Forall₂.cons (fun _ => rfl) (ih ws hrec)

/-- The key an absent-valued property would have used never appears in
`serialisePresent`'s output. -/
theorem serialisePresent_absent_key {J : Type u} (ps : List (ConfigProperty J)) :
    ∀ (vs : List (Option J)) (p : ConfigProperty J),
      (ps.map ConfigProperty.name).Nodup →
      (p, (none : Option J)) ∈ ps.zip vs →
      ∀ kv ∈ serialisePresent ps vs, kv.1 ≠ p.name := by
  induction ps with
  | nil => intro vs p _ hz; simp at hz
  | cons q ps ih =>
    intro vs p hnd hz
    cases vs with
    | nil => simp at hz
    | cons v vs =>
      have hnd0 : (q.name :: ps.map ConfigProperty.name).Nodup := by
        simpa using hnd
      have hnd' := List.nodup_cons.1 hnd0
      have hz0 : (p, (none : Option J)) ∈ (q, v) :: ps.zip vs := by
        simpa using hz
      rcases List.mem_cons.1 hz0 with he | hz'
      · have hpq : p = q := congrArg Prod.fst he
        have hv : v = none := (congrArg Prod.snd he).symm
        subst hpq
        subst hv
        simp only [serialisePresent]
        intro kv hkv he2
        exact hnd'.1 (by rw [← he2]; exact serialisePresent_keys ps vs kv hkv)
      · have hp : p ∈ ps := (List.of_mem_zip hz').1
        have hqp : q.name ≠ p.name := fun he2 =>
          hnd'.1 (by rw [he2]; exact List.mem_map_of_mem ConfigProperty.name hp)
        cases v with
        | some x =>
          simp only [serialisePresent]
          intro kv hkv
          rcases List.mem_cons.1 hkv with he2 | ht
          · simpa [he2] using hqp
          · exact ih vs p hnd'.2 hz' kv ht
        | none =>
          simp only [serialisePresent]
          exact ih vs p hnd'.2 hz'

/-- The `Absent` handling of the serialise and property-setting loops in
isolation: an optional declared property whose slot is `Absent` contributes
no key to `_serialise_to_raw_json`'s output (no `Absent` value is ever
emitted — the output type holds only raw JSON), and a run of the
declared-property loop over an object lacking a property's key leaves that
slot `Absent`. Whether any instance can exhibit this is a separate question
(it cannot — see the claim C8 theorem below). -/
theorem absent_key_omitted_in_loops {J : Type u}
    (ps : List (ConfigProperty J)) (c : Configuration J)
    (p : ConfigProperty J) (obj : List (String × J)) (vs' : List (Option J)) :
    ((ps.map ConfigProperty.name).Nodup →
      (∀ kv ∈ c.additional, ∀ q ∈ ps, kv.1 ≠ q.name) →
      (p, (none : Option J)) ∈ ps.zip c.values →
      (serialise_to_raw_json ps c).lookup p.name = none) ∧
    (initPropertyValues ps obj = some vs' →
      List.Forall₂ (fun (q : ConfigProperty J) (v' : Option J) =>
        obj.lookup q.name = none → v' = none) ps vs') := by
  constructor
  · intro hnd hadd hz
    obtain ⟨vs, add⟩ := c
    simp only [serialise_to_raw_json] at *
    have hp : p ∈ ps := (List.of_mem_zip hz).1
    have hupd : dictUpdate (serialisePresent ps vs) add =
        serialisePresent ps vs ++ add := by
      refine dictUpdate_disjoint _ _ (fun kv hkv => ?_) (fun kv hkv => ?_)
      · obtain ⟨q, hq, hqname⟩ :=
          List.mem_map.1 (serialisePresent_keys ps vs kv hkv)
        exact lookup_eq_none_of_keys _ _ (fun akv hakv he =>
          hadd akv hakv q hq (he.trans hqname.symm))
      · refine lookup_eq_none_of_keys _ _ (fun kv' hkv' he => ?_)
        obtain ⟨q, hq, hqname⟩ :=
          List.mem_map.1 (serialisePresent_keys ps vs kv' hkv')
        exact hadd kv hkv q hq ((hqname.trans he).symm)
    rw [hupd,
      lookup_append_left_none _ _ _ (lookup_eq_none_of_keys _ _
        (serialisePresent_absent_key ps vs p hnd hz))]
    exact lookup_eq_none_of_keys _ _ (fun kv hkv => hadd kv hkv p hp)
  · exact initPropertyValues_missing_key ps obj vs'

/-- Closed exercise of `absent_key_omitted_in_loops`: an absent optional
`label` contributes no key to the serialised object, and the property loop
run on an object lacking the key stores `Absent` for it. -/
theorem absent_key_omitted_in_loops_witness :
    (serialise_to_raw_json [⟨"label", true, some, id⟩]
        ⟨[(none : Option Int)], [("extra", 7)]⟩).lookup ("label") = none ∧
    initPropertyValues [⟨"label", true, some, id⟩]
        [("other", (7 : Int))] = some [none] := by
  constructor
  · exact (absent_key_omitted_in_loops [⟨"label", true, some, id⟩]
      ⟨[(none : Option Int)], [("extra", 7)]⟩ ⟨"label", true, some, id⟩
      [] []).1 (by decide) (by decide) (by simp)
  · rfl

/-- Claim C8 — code bug: the `Absent` handling the claim describes exists in
the loops but the program can never exhibit it. `serialisePresent` emits no
key for an `Absent` slot (and its output type holds only raw JSON, so
`Absent` never appears in emitted JSON), and the declared-property loop
stores `Absent` for the missing key of an optional property — but `__init__`
then unconditionally calls `init_additional_properties`, which raises while
defining `AdditionalPropertiesProxy` (its abstract `value_property` slot is
never overridden; `sub_property` is defined instead), so constructing or
deserialising from any object — with or without the property's key — never
yields an instance whose read could return `Absent`. -/
theorem C8_construction_never_returns {J : Type u}
    (ps : List (ConfigProperty J)) (ap : ConfigProperty J)
    (obj : List (String × J)) (p : ConfigProperty J) (j : J) :
    deserialise_from_raw_json ps ap obj = none ∧
    serialisePresent [p] [none] = [] ∧
    initPropertyValues [(⟨"label", true, some, id⟩ : ConfigProperty J)]
      [(("other" : String), j)] = some [none] := by
  refine ⟨?_, rfl, rfl⟩
  unfold deserialise_from_raw_json
  cases initPropertyValues ps obj <;> rfl

end WaiCommon
